/-
Verification of the concurrent cleanup pipeline in sampleMaintenance.py
(stale-schedule finder, two deletion worker pools, shutdown coordinator)
and of the retry loop in utils/apiConnect.py.

The Python source is shallowly embedded: the finder's network interaction
is abstracted by an environment `Env` mapping each query to the response
the remote service would give (status code plus the list of `URI` strings
of the `result_set`); everything downstream of those responses is
translated statement by statement from the source.
-/
import Mathlib

namespace Maintenance

/-! ## Responses and environment

`fetch_schedule_ids` and `delete_task_and_schedules` look only at
`responseCode` and the list of `result['URI']` strings in
`responseJSON['result_set']`; a `Response` records exactly that. -/

structure Response where
  code : Int
  resultSet : List String
deriving Repr, DecidableEq

/-- The remote service as seen by the finder: the single parent-listing
query (`GET /api/schedule?...`) and, per parent id, the dependent-listing
query (`GET /api/schedule/{id}/task`). -/
structure Env where
  scheduleListResp : Response
  taskResp : String → Response

/-- The success test `responseCode > 199 and responseCode < 300` used at
lines 151-153 and 205-207 of sampleMaintenance.py. -/
def is2xx (code : Int) : Bool := code > 199 && code < 300

/-! ## The two id-extraction regexes

Line 157 runs `re.search(r'schedule[^\d]+([\d]+)', uri)` and line 211 runs
`re.search(r'\/task\/([\d]+)', uri)`; `.group(1)` is then called on the
match object, which raises `AttributeError` when the search found nothing.
`re.search` scans for the leftmost position at which the whole pattern
matches.  Both patterns are literal text followed by character classes, so
the engine's behaviour is: match the literal, greedily take the required
character-class runs, capture the digit run. -/

/-- Consume the literal `lit` from the front of `s`, returning the
remainder, or `none` when `s` does not start with `lit`. -/
def dropLit : List Char → List Char → Option (List Char)
  | [], s => some s
  | _ :: _, [] => none
  | p :: ps, c :: cs => if p = c then dropLit ps cs else none

/-- Attempt `schedule[^\d]+([\d]+)` anchored at the front of `s`:
the literal `schedule`, then one or more non-digits, then the captured
run of one or more digits. -/
def schedHere (s : List Char) : Option (List Char) :=
  match dropLit "schedule".toList s with
  | none => none
  | some rest =>
    let nd := rest.takeWhile (fun c => !c.isDigit)
    let ds := (rest.dropWhile (fun c => !c.isDigit)).takeWhile Char.isDigit
    if nd.isEmpty || ds.isEmpty then none else some ds

/-- Search `re.search(r'schedule[^\d]+([\d]+)', ·)`: try each start position
left to right, return the first capture. -/
def searchSched : List Char → Option (List Char)
  | [] => none
  | c :: cs =>
    match schedHere (c :: cs) with
    | some ds => some ds
    | none => searchSched cs

/-- Attempt `\/task\/([\d]+)` anchored at the front of `s`. -/
def taskHere (s : List Char) : Option (List Char) :=
  match dropLit "/task/".toList s with
  | none => none
  | some rest =>
    let ds := rest.takeWhile Char.isDigit
    if ds.isEmpty then none else some ds

/-- Search `re.search(r'\/task\/([\d]+)', ·)`. -/
def searchTask : List Char → Option (List Char)
  | [] => none
  | c :: cs =>
    match taskHere (c :: cs) with
    | some ds => some ds
    | none => searchTask cs

/-! ## fetch_schedule_ids (lines 106-160)

After the GET, the guard `responseCode in (199,300) and result_set` (a
short-circuit `and`, the list being truthy iff non-empty) selects the
success path; inside it every `result['URI']` is searched and
`.group(1)` appended.  A URI the regex does not match makes `.group(1)`
raise; ids appended before that point stay appended.  We model the
function as the list built so far paired with a flag recording whether
the loop raised. -/

/-- The `for result in result_set` loop body of lines 156-158: extract an
id from each URI in order, stopping with `raised = true` at the first URI
the regex misses. -/
def emitScheds : List String → List String × Bool
  | [] => ([], false)
  | u :: rest =>
    match searchSched u.toList with
    | none => ([], true)
    | some ds =>
      let r := emitScheds rest
      (String.mk ds :: r.1, r.2)

def fetch_schedule_ids (env : Env) : List String × Bool :=
  if is2xx env.scheduleListResp.code && !env.scheduleListResp.resultSet.isEmpty then
    emitScheds env.scheduleListResp.resultSet
  else ([], false)

/-! ## delete_task_and_schedules (lines 163-213)

For each `schedule_id` the dependent query is issued; on a 2xx response
with a non-empty `result_set` each dependent id is put on the `tasks`
queue, then unconditionally the parent id is put on the `schedules`
queue.  The two `put` calls interleave into one global enqueue sequence,
recorded here as a list of `Event`s. -/

inductive Event where
  | task (id : String)
  | sched (id : String)
deriving Repr, DecidableEq

/-- The inner `for result in result_set` loop of lines 210-212: enqueue
one task event per URI, stopping with `raised = true` at the first URI
`\/task\/([\d]+)` misses. -/
def emitTasks : List String → List Event × Bool
  | [] => ([], false)
  | u :: rest =>
    match searchTask u.toList with
    | none => ([], true)
    | some ds =>
      let r := emitTasks rest
      (Event.task (String.mk ds) :: r.1, r.2)

/-- One iteration of the `for schedule_id in schedules` loop
(lines 201-213): the dependent query, the guarded task enqueues, then
the parent enqueue.  A raise inside the task loop skips the parent
enqueue (the exception propagates). -/
def runParent (env : Env) (p : String) : List Event × Bool :=
  let r := env.taskResp p
  if is2xx r.code && !r.resultSet.isEmpty then
    let t := emitTasks r.resultSet
    if t.2 then (t.1, true) else (t.1 ++ [Event.sched p], false)
  else ([Event.sched p], false)

/-- The whole loop of `delete_task_and_schedules`; the `debug` argument
is accepted but unused, exactly as in the source (pylint
`unused-argument` is disabled on it there). -/
def delete_task_and_schedules (env : Env) (schedules : List String)
    (debug : Bool) : List Event × Bool :=
  match schedules with
  | [] => ([], false)
  | p :: rest =>
    let r := runParent env p
    if r.2 then (r.1, true)
    else
      let t := delete_task_and_schedules env rest debug
      (r.1 ++ t.1, t.2)

/-- The ids a parent's dependent query contributes when no URI makes the
regex raise: the extracted id of every URI in a successful non-empty
`result_set`, nothing otherwise. -/
def depsOf (env : Env) (p : String) : List String :=
  let r := env.taskResp p
  if is2xx r.code && !r.resultSet.isEmpty then
    r.resultSet.filterMap (fun u => (searchTask u.toList).map String.mk)
  else []

/-- The enqueue sequence in closed form: per parent, its dependent task
events followed immediately by its own sched event. -/
def tracePure (env : Env) : List String → List Event
  | [] => []
  | p :: rest => (depsOf env p).map Event.task ++ Event.sched p :: tracePure env rest

/-- Projection of the enqueue sequence onto the `tasks` queue. -/
def tasksQueueOf (tr : List Event) : List String :=
  tr.filterMap (fun e => match e with | .task i => some i | .sched _ => none)

/-- Projection of the enqueue sequence onto the `schedules` queue. -/
def schedsQueueOf (tr : List Event) : List String :=
  tr.filterMap (fun e => match e with | .task _ => none | .sched i => some i)

/-! ## The worker loop (delete_tasks, lines 356-423, and delete_schedules,
lines 426-497)

Each worker repeatedly does `work_queue.get(True, 10)`; a timeout is
ignored and the loop runs again; a message whose `id` is the string
`'done'` sets `done = True` (leaving `id = None`, so no delete happens
for the sentinel); any other message sets `id`, and `if id:` (so only a
truthy, i.e. non-empty, id) triggers the delete: an info log, the URI
assignment, and — only when `debug` is unset — the actual
`tryAPIRequest()` network call.  The worker never puts anything on any
queue; `enqueued` records the (empty) set of such puts.  The loop exits
only via `done`. -/

/-- What a worker can observe from one `get` call. -/
inductive QEvent where
  | item (id : String)
  | timeout
deriving Repr, DecidableEq

/-- Observable behaviour of one worker over a sequence of queue events. -/
structure WorkerRun where
  logs : List String
  netCalls : List String
  enqueued : List String
  finished : Bool
deriving Repr, DecidableEq

/-- The `while not done` loop of `delete_tasks`, parameterized by the log
text and URI pattern so `delete_schedules` (identical control flow, other
endpoint) shares it. -/
def workerLoop (logHead uriHead : String) (debug : Bool) :
    List QEvent → WorkerRun
  | [] => ⟨[], [], [], false⟩
  | QEvent.timeout :: rest => workerLoop logHead uriHead debug rest
  | QEvent.item id :: rest =>
    if id = "done" then ⟨[], [], [], true⟩
    else if id = "" then workerLoop logHead uriHead debug rest
    else
      let r := workerLoop logHead uriHead debug rest
      ⟨(logHead ++ id) :: r.logs,
       (if debug then [] else [uriHead ++ id]) ++ r.netCalls,
       r.enqueued, r.finished⟩

def delete_tasks (debug : Bool) (events : List QEvent) : WorkerRun :=
  workerLoop "Deleting task " "/api/task/" debug events

def delete_schedules (debug : Bool) (events : List QEvent) : WorkerRun :=
  workerLoop "Deleting schedule " "/api/schedule/" debug events

/-! ## Coordinator constants and the drain model

`create_delete_threads` (line 276) starts `num_api_threads = 4` workers
per queue; `manage_threads` (line 332) independently hardcodes
`num_api_threads = 4` and puts that many `{'id': 'done'}` sentinels on
each queue (lines 338-340), after joining the fetch thread, so every real
work item precedes every sentinel in the FIFO queue.

The concurrent drain is modelled by an assignment: the queue hands its
items out in FIFO order, so the j-th dequeue operation receives the j-th
item; `assign` records which worker performed the j-th dequeue.  Worker
`w`'s stream is the subsequence of items assigned to it.  Because a
worker stops dequeuing the moment it reads the sentinel, a behaviourally
possible (valid) assignment is one in which `'done'` occurs in a stream
only at its last position. -/

def create_num_api_threads : Nat := 4

def manage_num_api_threads : Nat := 4

/-- The sentinel message injected by `manage_threads`. -/
def sentinelId : String := "done"

/-- The items worker `w` dequeues, in order. -/
def workerStream (n : Nat) (queue : List String) (assign : List (Fin n))
    (w : Fin n) : List String :=
  ((queue.zip assign).filter (fun p => p.2 = w)).map Prod.fst

/-- A stream a worker can actually produce: it stops at the sentinel, so
the sentinel appears at most once, and only as the last element. -/
def doneOnlyLast (s : List String) : Prop := sentinelId ∉ s.dropLast

/-- A full drain of `queue` by `n` workers: every dequeue is performed by
some worker and every worker's stream is behaviourally possible. -/
def ValidDrain (n : Nat) (queue : List String) (assign : List (Fin n)) : Prop :=
  assign.length = queue.length ∧ ∀ w : Fin n, doneOnlyLast (workerStream n queue assign w)

instance (s : List String) : Decidable (doneOnlyLast s) := by
  unfold doneOnlyLast; infer_instance

instance (n : Nat) (queue : List String) (assign : List (Fin n)) :
    Decidable (ValidDrain n queue assign) := by
  unfold ValidDrain; infer_instance

/-! ## The retry loop of APIConnection.httpRequest
(utils/apiConnect.py, lines 360-556, non-`loop` mode)

`attemptLimit` starts at `retry500`; each attempt issues the request and
gets `resp k` (the status the service returns on the k-th attempt,
1-based).  A 5xx status with `retry500` set decrements `attemptLimit`,
logs one attempt-failure `logger.error` (saying `retrying`, or `aborting`
when the limit just hit zero), and sleeps and retries while the limit is
positive.  Any other status zeroes the limit.  Once the limit is zero the
response is recorded (`responseCode` etc.); then `if response:` uses the
`requests` truthiness — `response.ok`, i.e. status < 400 — so a final
4xx/5xx takes the `else` branch, which logs exactly one item-level
`requestError` and returns.  `attemptErrors` counts the per-attempt
failure logs, `itemErrors` the item-level `requestError` log. -/

structure HttpResult where
  finalCode : Nat
  attempts : Nat
  attemptErrors : Nat
  itemErrors : Nat
deriving Repr, DecidableEq

/-- The retry test `(response.status_code > 499) and (response.status_code < 600)`. -/
def is5xx (c : Nat) : Bool := c > 499 && c < 600

/-- Truthiness `bool(response)` in `requests`: `response.ok`, status below 400. -/
def responseOk (c : Nat) : Bool := c < 400

/-- The `while attemptLimit` loop, for a positive retry bound: `limit`
is the current `attemptLimit`, `k` the 1-based number of the attempt
about to be issued, `errs` the attempt-failure errors logged so far. -/
def httpLoop (resp : Nat → Nat) : Nat → Nat → Nat → HttpResult
  | 0, k, errs => ⟨0, k, errs, 0⟩
  | 1, k, errs =>
    let c := resp k
    if is5xx c then ⟨c, k, errs + 1, if responseOk c then 0 else 1⟩
    else ⟨c, k, errs, if responseOk c then 0 else 1⟩
  | Nat.succ (Nat.succ l), k, errs =>
    let c := resp k
    if is5xx c then httpLoop resp (Nat.succ l) (k + 1) (errs + 1)
    else ⟨c, k, errs, if responseOk c then 0 else 1⟩

/-- The call `httpRequest` as configured throughout sampleMaintenance.py:
`retry500 = 10`. -/
def httpRequest10 (resp : Nat → Nat) : HttpResult := httpLoop resp 10 1 0

/-! ## main (lines 36-103)

After argument parsing and logger setup, the guard at lines 65-71 fires
when `'SERVER'` is absent from the parameters, its value is falsy (the
empty string), or its value lowercases to `'none'`; it then runs
`sys.exit(0)` — process exit status 0 — before `create_delete_threads`
or `create_fetch_thread` run, so before any thread is created and before
any API call is issued.  Otherwise the full pipeline runs; `main` returns
`instance_test_triggered_exit.exit_status`, but the module-level call
`main(sys.argv[1:])` ignores that value, so the interpreter also exits
with status 0. -/

/-- Python `str.lower()` on one character, for the ASCII letters the
SERVER comparison can involve. -/
def lowerChar (c : Char) : Char :=
  if 'A' ≤ c && c ≤ 'Z' then Char.ofNat (c.toNat + 32) else c

/-- Python `str.lower()`. -/
def lowerStr (s : String) : String := String.mk (s.data.map lowerChar)

def serverMissing : Option String → Bool
  | none => true
  | some s => s.isEmpty || lowerStr s = "none"

structure MainOutcome where
  exitCode : Nat
  threadsStarted : Bool
  apiCallsStarted : Bool
deriving Repr, DecidableEq

def mainRun (server : Option String) : MainOutcome :=
  if serverMissing server then ⟨0, false, false⟩ else ⟨0, true, true⟩

/-! ## Pipeline state and the concrete scenario -/

inductive PipelineState where
  | initializing
  | discovering
  | draining
  | joining
  | terminated
deriving Repr, DecidableEq

/-- The coordinator `manage_threads` blocks on every worker's `join` (lines 346-348);
the run reaches its terminal log line exactly when every worker's loop
has finished. -/
def coordinatorState (workerFinished : List Bool) : PipelineState :=
  if workerFinished.all (fun b => b) then PipelineState.terminated
  else PipelineState.joining

/-- An id a worker actually deletes: not the sentinel and truthy
(non-empty), per lines 401-404 and 413 of sampleMaintenance.py. -/
def goodId (i : String) : Bool := !(i == sentinelId) && !(i == "")

/-- The environment of spec §8.5: the parent query returns records 101
and 202; 101 has the single dependent 5001; 202 has none. -/
def env4 : Env :=
  { scheduleListResp := ⟨200, ["/api/schedule/101", "/api/schedule/202"]⟩,
    taskResp := fun p =>
      if p = "101" then ⟨200, ["/api/task/5001"]⟩
      else if p = "202" then ⟨200, []⟩
      else ⟨404, []⟩ }

/-- The tasks queue of the §8.5 scenario after the fetch thread joined
and the sentinels were injected. -/
def drainTasksQ4 : List String :=
  tasksQueueOf (delete_task_and_schedules env4 (fetch_schedule_ids env4).1 false).1
    ++ List.replicate 4 sentinelId

/-- The schedules queue of the §8.5 scenario after sentinel injection. -/
def drainSchedsQ4 : List String :=
  schedsQueueOf (delete_task_and_schedules env4 (fetch_schedule_ids env4).1 false).1
    ++ List.replicate 4 sentinelId

/-- A string of one or more decimal digits. -/
def digitsStr (s : String) : Prop := s.data ≠ [] ∧ s.data.all Char.isDigit = true

instance (s : String) : Decidable (digitsStr s) := by
  unfold digitsStr; infer_instance

/-- The id carried by an enqueued work item. -/
def idOf : Event → String
  | .task i => i
  | .sched i => i

/-- Dependent ids of all parents, concatenated in discovery order. -/
def concatDeps (env : Env) : List String → List String
  | [] => []
  | p :: rest => depsOf env p ++ concatDeps env rest

/-! ## Lemmas: what the two regexes can capture -/

theorem schedHere_digits {s ds : List Char} (h : schedHere s = some ds) :
    ds ≠ [] ∧ ds.all Char.isDigit = true := by
  unfold schedHere at h
  cases hd : dropLit "schedule".toList s with
  | none => rw [hd] at h; exact absurd h (by simp)
  | some rest =>
    rw [hd] at h
    simp only at h
    by_cases hc : (rest.takeWhile (fun c => !c.isDigit)).isEmpty
      || ((rest.dropWhile (fun c => !c.isDigit)).takeWhile Char.isDigit).isEmpty
    · rw [if_pos hc] at h; exact absurd h (by simp)
    · rw [if_neg hc] at h
      have hds : ds = (rest.dropWhile (fun c => !c.isDigit)).takeWhile Char.isDigit :=
        (Option.some.injEq _ _ ▸ h).symm
      constructor
      · intro hnil
        rw [hds] at hnil
        rw [hnil] at hc
        simp at hc
      · rw [hds, List.all_eq_true]
        intro c hcmem
        exact List.mem_takeWhile_imp hcmem

theorem searchSched_digits {s ds : List Char} (h : searchSched s = some ds) :
    ds ≠ [] ∧ ds.all Char.isDigit = true := by
  induction s with
  | nil => exact absurd h (by simp [searchSched])
  | cons c cs ih =>
    rw [searchSched] at h
    cases hh : schedHere (c :: cs) with
    | some r =>
      rw [hh] at h
      exact (Option.some.injEq _ _ ▸ h) ▸ schedHere_digits hh
    | none => rw [hh] at h; exact ih h

theorem taskHere_digits {s ds : List Char} (h : taskHere s = some ds) :
    ds ≠ [] ∧ ds.all Char.isDigit = true := by
  unfold taskHere at h
  cases hd : dropLit "/task/".toList s with
  | none => rw [hd] at h; exact absurd h (by simp)
  | some rest =>
    rw [hd] at h
    simp only at h
    by_cases hc : (rest.takeWhile Char.isDigit).isEmpty
    · rw [if_pos hc] at h; exact absurd h (by simp)
    · rw [if_neg hc] at h
      have hds : ds = rest.takeWhile Char.isDigit := (Option.some.injEq _ _ ▸ h).symm
      constructor
      · intro hnil; rw [hds] at hnil; rw [hnil] at hc; simp at hc
      · rw [hds, List.all_eq_true]
        intro c hcmem
        exact List.mem_takeWhile_imp hcmem

theorem searchTask_digits {s ds : List Char} (h : searchTask s = some ds) :
    ds ≠ [] ∧ ds.all Char.isDigit = true := by
  induction s with
  | nil => exact absurd h (by simp [searchTask])
  | cons c cs ih =>
    rw [searchTask] at h
    cases hh : taskHere (c :: cs) with
    | some r =>
      rw [hh] at h
      exact (Option.some.injEq _ _ ▸ h) ▸ taskHere_digits hh
    | none => rw [hh] at h; exact ih h

theorem digitsStr_mk {ds : List Char} (hne : ds ≠ [])
    (hall : ds.all Char.isDigit = true) : digitsStr (String.mk ds) :=
  ⟨hne, hall⟩

theorem digitsStr_ne_sentinel {s : String} (h : digitsStr s) : s ≠ sentinelId := by
  intro he; rw [he] at h; exact absurd h (by decide)

theorem digitsStr_ne_empty {s : String} (h : digitsStr s) : s ≠ "" := by
  intro he; rw [he] at h; exact absurd h (by decide)

/-! ## Lemmas: shape of the enqueue trace -/

theorem mem_emitScheds {l : List String} : ∀ s ∈ (emitScheds l).1, digitsStr s := by
  induction l with
  | nil => intro s hs; exact absurd hs (by simp [emitScheds])
  | cons u rest ih =>
    intro s hs
    rw [emitScheds] at hs
    cases hu : searchSched u.toList with
    | none => rw [hu] at hs; exact absurd hs (by simp)
    | some ds =>
      rw [hu] at hs
      simp only [List.mem_cons] at hs
      rcases hs with rfl | hs
      · exact digitsStr_mk (searchSched_digits hu).1 (searchSched_digits hu).2
      · exact ih s hs

theorem mem_fetch_digits (env : Env) : ∀ s ∈ (fetch_schedule_ids env).1, digitsStr s := by
  intro s hs
  unfold fetch_schedule_ids at hs
  by_cases hc : (is2xx env.scheduleListResp.code && !env.scheduleListResp.resultSet.isEmpty) = true
  · rw [if_pos hc] at hs; exact mem_emitScheds s hs
  · rw [if_neg hc] at hs; exact absurd hs (by simp)

theorem mem_emitTasks {l : List String} :
    ∀ e ∈ (emitTasks l).1, ∃ i, digitsStr i ∧ e = Event.task i := by
  induction l with
  | nil => intro e he; exact absurd he (by simp [emitTasks])
  | cons u rest ih =>
    intro e he
    rw [emitTasks] at he
    cases hu : searchTask u.toList with
    | none => rw [hu] at he; exact absurd he (by simp)
    | some ds =>
      rw [hu] at he
      simp only [List.mem_cons] at he
      rcases he with rfl | he
      · exact ⟨String.mk ds,
          digitsStr_mk (searchTask_digits hu).1 (searchTask_digits hu).2, rfl⟩
      · exact ih e he

theorem mem_runParent (env : Env) (p : String) :
    ∀ e ∈ (runParent env p).1,
      e = Event.sched p ∨ ∃ i, digitsStr i ∧ e = Event.task i := by
  intro e he
  unfold runParent at he
  by_cases hc : (is2xx (env.taskResp p).code && !(env.taskResp p).resultSet.isEmpty) = true
  · rw [if_pos hc] at he
    simp only at he
    by_cases ht : (emitTasks (env.taskResp p).resultSet).2 = true
    · rw [if_pos ht] at he
      exact Or.inr (mem_emitTasks e he)
    · rw [if_neg ht] at he
      simp only [List.mem_append, List.mem_singleton] at he
      rcases he with he | rfl
      · exact Or.inr (mem_emitTasks e he)
      · exact Or.inl rfl
  · rw [if_neg hc] at he
    simp only [List.mem_singleton] at he
    exact Or.inl he

theorem mem_trace (env : Env) (debug : Bool) :
    ∀ (ps : List String), ∀ e ∈ (delete_task_and_schedules env ps debug).1,
      (∃ p, p ∈ ps ∧ e = Event.sched p) ∨ ∃ i, digitsStr i ∧ e = Event.task i := by
  intro ps
  induction ps with
  | nil => intro e he; exact absurd he (by simp [delete_task_and_schedules])
  | cons p rest ih =>
    intro e he
    rw [delete_task_and_schedules] at he
    by_cases hr : (runParent env p).2 = true
    · rw [if_pos hr] at he
      rcases mem_runParent env p e he with rfl | hi
      · exact Or.inl ⟨p, List.mem_cons_self p rest, rfl⟩
      · exact Or.inr hi
    · rw [if_neg hr] at he
      simp only [List.mem_append] at he
      rcases he with he | he
      · rcases mem_runParent env p e he with rfl | hi
        · exact Or.inl ⟨p, List.mem_cons_self p rest, rfl⟩
        · exact Or.inr hi
      · rcases ih e he with ⟨q, hq, rfl⟩ | hi
        · exact Or.inl ⟨q, List.mem_cons_of_mem p hq, rfl⟩
        · exact Or.inr hi

/-! ## Lemmas: the raise-free trace in closed form -/

theorem emitTasks_ok {l : List String} (h : (emitTasks l).2 = false) :
    (emitTasks l).1
      = (l.filterMap (fun u => (searchTask u.toList).map String.mk)).map Event.task := by
  induction l with
  | nil => simp [emitTasks]
  | cons u rest ih =>
    rw [emitTasks] at h ⊢
    cases hu : searchTask u.toList with
    | none => rw [hu] at h; simp at h
    | some ds =>
      rw [hu] at h
      simp only at h
      simp only [List.filterMap_cons, hu, Option.map_some, List.map_cons]
      exact congrArg _ (ih h)

theorem runParent_ok {env : Env} {p : String} (h : (runParent env p).2 = false) :
    (runParent env p).1 = (depsOf env p).map Event.task ++ [Event.sched p] := by
  unfold runParent depsOf at *
  by_cases hc : (is2xx (env.taskResp p).code && !(env.taskResp p).resultSet.isEmpty) = true
  · rw [if_pos hc] at h ⊢
    simp only at h ⊢
    by_cases ht : (emitTasks (env.taskResp p).resultSet).2 = true
    · rw [if_pos ht] at h; simp at h
    · rw [if_neg ht] at h ⊢
      simp only
      rw [emitTasks_ok (Bool.not_eq_true _ ▸ ht), if_pos hc]
  · rw [if_neg hc] at h ⊢
    rw [if_neg hc]
    simp

theorem trace_eq {env : Env} {debug : Bool} :
    ∀ {ps : List String}, (delete_task_and_schedules env ps debug).2 = false →
      (delete_task_and_schedules env ps debug).1 = tracePure env ps := by
  intro ps
  induction ps with
  | nil => intro _; simp [delete_task_and_schedules, tracePure]
  | cons p rest ih =>
    intro h
    rw [delete_task_and_schedules] at h ⊢
    by_cases hr : (runParent env p).2 = true
    · rw [if_pos hr] at h; simp at h
    · rw [if_neg hr] at h ⊢
      simp only at h ⊢
      rw [tracePure, ih h, runParent_ok (Bool.not_eq_true _ ▸ hr)]
      simp

theorem schedsQueueOf_map_task (l : List String) :
    schedsQueueOf (l.map Event.task) = [] := by
  induction l with
  | nil => rfl
  | cons i rest ih => simp [schedsQueueOf, List.filterMap_cons]

theorem tasksQueueOf_map_task (l : List String) :
    tasksQueueOf (l.map Event.task) = l := by
  induction l with
  | nil => rfl
  | cons i rest ih => simpa [tasksQueueOf, List.filterMap_cons] using ih

theorem schedsQueueOf_tracePure (env : Env) :
    ∀ ps : List String, schedsQueueOf (tracePure env ps) = ps := by
  intro ps
  induction ps with
  | nil => rfl
  | cons p rest ih =>
    rw [tracePure]
    rw [schedsQueueOf, List.filterMap_append, List.filterMap_cons]
    simp only
    rw [← schedsQueueOf, ← schedsQueueOf, schedsQueueOf_map_task, ih]
    rfl

theorem tasksQueueOf_tracePure (env : Env) :
    ∀ ps : List String, tasksQueueOf (tracePure env ps) = concatDeps env ps := by
  intro ps
  induction ps with
  | nil => rfl
  | cons p rest ih =>
    rw [tracePure, concatDeps]
    rw [tasksQueueOf, List.filterMap_append, List.filterMap_cons]
    simp only
    rw [← tasksQueueOf, ← tasksQueueOf, tasksQueueOf_map_task, ih]

theorem tracePure_decomp (env : Env) {p : String} :
    ∀ {ps : List String}, p ∈ ps →
      ∃ l1 l2, tracePure env ps
        = l1 ++ (depsOf env p).map Event.task ++ Event.sched p :: l2 := by
  intro ps
  induction ps with
  | nil => intro hp; cases hp
  | cons q rest ih =>
    intro hp
    rcases List.mem_cons.mp hp with rfl | hp
    · exact ⟨[], tracePure env rest, by rw [tracePure]; simp⟩
    · obtain ⟨l1, l2, heq⟩ := ih hp
      exact ⟨(depsOf env q).map Event.task ++ Event.sched q :: l1, l2,
        by rw [tracePure, heq]; simp⟩

/-! ## Lemmas: the FIFO drain by racing workers -/

theorem workerStream_cons {n : Nat} (x : String) (q : List String) (a : Fin n)
    (as : List (Fin n)) (w : Fin n) :
    workerStream n (x :: q) (a :: as) w
      = (if a = w then [x] else []) ++ workerStream n q as w := by
  by_cases h : a = w <;> simp [workerStream, h]

/-- The streams of the individual workers partition the queue: any way of
counting items distributes over the workers. -/
theorem sum_countP_workerStream (n : Nat) (pr : String → Bool) :
    ∀ (q : List String) (as : List (Fin n)), q.length = as.length →
      (∑ w : Fin n, (workerStream n q as w).countP pr) = q.countP pr := by
  intro q
  induction q with
  | nil =>
    intro as h
    cases as with
    | nil => simp [workerStream]
    | cons a as' => simp at h
  | cons x q' ih =>
    intro as h
    cases as with
    | nil => simp at h
    | cons a as' =>
      simp only [List.length_cons, Nat.add_right_cancel_iff] at h
      calc (∑ w : Fin n, (workerStream n (x :: q') (a :: as') w).countP pr)
          = ∑ w : Fin n, (((if a = w then [x] else []) : List String).countP pr
              + (workerStream n q' as' w).countP pr) := by
            refine Finset.sum_congr rfl (fun w _ => ?_)
            rw [workerStream_cons, List.countP_append]
        _ = (∑ w : Fin n, ((if a = w then [x] else []) : List String).countP pr)
              + ∑ w : Fin n, (workerStream n q' as' w).countP pr :=
            Finset.sum_add_distrib
        _ = (if pr x then 1 else 0) + q'.countP pr := by
            rw [ih as' h]
            congr 1
            have hrw : ∀ w : Fin n,
                ((if a = w then [x] else []) : List String).countP pr
                  = if a = w then (if pr x then 1 else 0) else 0 := by
              intro w
              by_cases haw : a = w <;> simp [haw, List.countP_cons]
            rw [Finset.sum_congr rfl (fun w _ => hrw w), Finset.sum_ite_eq]
            simp
        _ = (x :: q').countP pr := by rw [List.countP_cons]; omega

/-- A worker that stops at the sentinel dequeues it at most once. -/
theorem count_sentinel_le_one {s : List String} (h : doneOnlyLast s) :
    s.count sentinelId ≤ 1 := by
  rcases eq_or_ne s [] with rfl | hne
  · simp
  · have hd := List.dropLast_append_getLast hne
    rw [← hd, List.count_append]
    have h0 : s.dropLast.count sentinelId = 0 := List.count_eq_zero.mpr h
    have h1 : ([s.getLast hne] : List String).count sentinelId ≤ 1 := by
      by_cases hg : s.getLast hne = sentinelId <;> simp [hg, List.count_cons]
    omega

theorem all_eq_one_of_sum_eq_card {n : Nat} (f : Fin n → Nat)
    (hle : ∀ w, f w ≤ 1) (hsum : (∑ w, f w) = n) : ∀ w, f w = 1 := by
  intro w
  by_contra hne
  have hw : f w = 0 := by have := hle w; omega
  have hlt : (∑ v, f v) < ∑ _v : Fin n, 1 :=
    Finset.sum_lt_sum (fun i _ => hle i) ⟨w, Finset.mem_univ w, by omega⟩
  rw [Finset.sum_const, Finset.card_univ, Fintype.card_fin, smul_eq_mul,
    mul_one] at hlt
  omega

/-- Core drain property: with worker-many sentinels appended after the
real work, any behaviourally possible full drain hands exactly one
sentinel to every worker. -/
theorem drain_one_sentinel_each {n : Nat} {work : List String}
    {assign : List (Fin n)} (hw : sentinelId ∉ work)
    (hv : ValidDrain n (work ++ List.replicate n sentinelId) assign) :
    ∀ w : Fin n,
      (workerStream n (work ++ List.replicate n sentinelId) assign w).count
        sentinelId = 1 := by
  have hlen : (work ++ List.replicate n sentinelId).length = assign.length := hv.1.symm
  have hsum := sum_countP_workerStream n (fun x => x == sentinelId)
    (work ++ List.replicate n sentinelId) assign hlen
  have htot : (work ++ List.replicate n sentinelId).countP (fun x => x == sentinelId)
      = n := by
    rw [List.countP_append]
    have h1 : work.countP (fun x => x == sentinelId) = 0 := by
      rw [← List.count_eq_countP]
      exact List.count_eq_zero.mpr hw
    have h2 : (List.replicate n sentinelId).countP (fun x => x == sentinelId) = n := by
      rw [← List.count_eq_countP]
      simp
    omega
  rw [htot] at hsum
  have hle : ∀ w : Fin n,
      (workerStream n (work ++ List.replicate n sentinelId) assign w).countP
        (fun x => x == sentinelId) ≤ 1 := by
    intro w
    rw [← List.count_eq_countP]
    exact count_sentinel_le_one (hv.2 w)
  intro w
  rw [List.count_eq_countP]
  exact all_eq_one_of_sum_eq_card _ hle hsum w

/-! ## Lemmas: the worker loop -/

/-- Dequeuing the sentinel ends the loop at once: nothing is logged, no
delete is issued for it, nothing is put back. -/
theorem workerLoop_sentinel (logHead uriHead : String) (debug : Bool)
    (rest : List QEvent) :
    workerLoop logHead uriHead debug (QEvent.item sentinelId :: rest)
      = ⟨[], [], [], true⟩ := by
  simp [workerLoop, sentinelId]

/-- A dequeue timeout is ignored: the loop just runs again. -/
theorem workerLoop_timeout (logHead uriHead : String) (debug : Bool)
    (rest : List QEvent) :
    workerLoop logHead uriHead debug (QEvent.timeout :: rest)
      = workerLoop logHead uriHead debug rest := by
  simp [workerLoop]

/-- One loop iteration on a non-sentinel message. -/
theorem workerLoop_item_step (logHead uriHead : String) (debug : Bool)
    (x : String) (rest : List QEvent) (hx : x ≠ "done") :
    workerLoop logHead uriHead debug (QEvent.item x :: rest)
      = if x = "" then workerLoop logHead uriHead debug rest
        else ⟨(logHead ++ x) :: (workerLoop logHead uriHead debug rest).logs,
              (if debug then [] else [uriHead ++ x])
                ++ (workerLoop logHead uriHead debug rest).netCalls,
              (workerLoop logHead uriHead debug rest).enqueued,
              (workerLoop logHead uriHead debug rest).finished⟩ := by
  by_cases hx2 : x = "" <;> simp [workerLoop, hx, hx2]

theorem workerLoop_finished_of_mem (logHead uriHead : String) (debug : Bool) :
    ∀ s : List String, sentinelId ∈ s →
      (workerLoop logHead uriHead debug (s.map QEvent.item)).finished = true := by
  intro s
  induction s with
  | nil => intro h; cases h
  | cons x rest ih =>
    intro h
    by_cases hx : x = "done"
    · subst hx
      simp [workerLoop]
    · have hr : sentinelId ∈ rest := by
        rcases List.mem_cons.mp h with he | hr
        · exact absurd he.symm hx
        · exact hr
      rw [List.map_cons, workerLoop_item_step _ _ _ _ _ hx]
      by_cases hx2 : x = ""
      · rw [if_pos hx2]; exact ih hr
      · rw [if_neg hx2]; exact ih hr

theorem doneOnlyLast_of_cons {x : String} {rest : List String}
    (h : doneOnlyLast (x :: rest)) : doneOnlyLast rest := by
  unfold doneOnlyLast at h ⊢
  intro hmem
  rcases eq_or_ne rest [] with rfl | hne
  · cases hmem
  · apply h
    rw [List.dropLast_cons_of_ne_nil hne]
    exact List.mem_cons_of_mem _ hmem

/-- In a live (non-dry-run) worker, every processed non-sentinel, truthy
id produces exactly one DELETE network call; a behaviourally possible
stream is processed in full. -/
theorem workerLoop_netCalls_length (logHead uriHead : String) :
    ∀ s : List String, doneOnlyLast s →
      ((workerLoop logHead uriHead false (s.map QEvent.item)).netCalls).length
        = s.countP goodId := by
  intro s
  induction s with
  | nil => intro _; simp [workerLoop]
  | cons x rest ih =>
    intro h
    by_cases hx : x = "done"
    · subst hx
      have hrest : rest = [] := by
        by_contra hne
        have hdl : ("done" :: rest).dropLast = "done" :: rest.dropLast :=
          List.dropLast_cons_of_ne_nil hne
        have : sentinelId ∈ ("done" :: rest).dropLast := by
          rw [hdl]; exact List.mem_cons_self _ _
        exact h this
      subst hrest
      simp [workerLoop, List.countP_cons, goodId, sentinelId]
    · have hrest := doneOnlyLast_of_cons h
      rw [List.map_cons, workerLoop_item_step _ _ _ _ _ hx]
      by_cases hx2 : x = ""
      · rw [if_pos hx2, ih hrest, List.countP_cons]
        simp [goodId, hx2]
      · rw [if_neg hx2]
        dsimp only
        rw [List.length_append, ih hrest, List.countP_cons]
        have : goodId x = true := by simp [goodId, sentinelId, hx, hx2]
        rw [this]
        simp
        omega

theorem workerLoop_enqueued_nil (logHead uriHead : String) (debug : Bool) :
    ∀ evs : List QEvent, (workerLoop logHead uriHead debug evs).enqueued = [] := by
  intro evs
  induction evs with
  | nil => rfl
  | cons e rest ih =>
    cases e with
    | timeout => rw [workerLoop_timeout]; exact ih
    | item x =>
      by_cases hx : x = "done"
      · subst hx; simp [workerLoop]
      · rw [workerLoop_item_step _ _ _ _ _ hx]
        by_cases hx2 : x = ""
        · rw [if_pos hx2]; exact ih
        · rw [if_neg hx2]; exact ih

theorem workerLoop_dryrun_parts (logHead uriHead : String) :
    ∀ evs : List QEvent,
      (workerLoop logHead uriHead true evs).netCalls = []
      ∧ (workerLoop logHead uriHead true evs).logs
          = (workerLoop logHead uriHead false evs).logs
      ∧ (workerLoop logHead uriHead true evs).finished
          = (workerLoop logHead uriHead false evs).finished := by
  intro evs
  induction evs with
  | nil => exact ⟨rfl, rfl, rfl⟩
  | cons e rest ih =>
    cases e with
    | timeout => rw [workerLoop_timeout, workerLoop_timeout]; exact ih
    | item x =>
      by_cases hx : x = "done"
      · subst hx; simp [workerLoop]
      · rw [workerLoop_item_step _ _ _ _ _ hx, workerLoop_item_step _ _ _ _ _ hx]
        by_cases hx2 : x = ""
        · rw [if_pos hx2, if_pos hx2]; exact ih
        · rw [if_neg hx2, if_neg hx2]
          exact ⟨by simp [ih.1], by simp [ih.2.1], ih.2.2⟩

theorem workerLoop_finished_iff (logHead uriHead : String) (debug : Bool) :
    ∀ evs : List QEvent,
      (workerLoop logHead uriHead debug evs).finished = true
        ↔ QEvent.item sentinelId ∈ evs := by
  intro evs
  induction evs with
  | nil => simp [workerLoop]
  | cons e rest ih =>
    cases e with
    | timeout =>
      rw [workerLoop_timeout, ih]
      simp
    | item x =>
      by_cases hx : x = "done"
      · subst hx
        simp [workerLoop, sentinelId]
      · rw [workerLoop_item_step _ _ _ _ _ hx]
        have hmem : (QEvent.item sentinelId ∈ QEvent.item x :: rest)
            ↔ QEvent.item sentinelId ∈ rest := by
          simp [sentinelId]
          intro he
          exact absurd he.symm hx
        by_cases hx2 : x = ""
        · rw [if_pos hx2, ih, hmem]
        · rw [if_neg hx2]
          show (workerLoop logHead uriHead debug rest).finished = true ↔ _
          rw [ih, hmem]

theorem delete_task_and_schedules_debug_irrel (env : Env) (d1 d2 : Bool) :
    ∀ ps : List String,
      delete_task_and_schedules env ps d1 = delete_task_and_schedules env ps d2 := by
  intro ps
  induction ps with
  | nil => rfl
  | cons p rest ih =>
    rw [delete_task_and_schedules, delete_task_and_schedules, ih]

/-! ## Lemmas: the retry loop -/

theorem httpLoop_step2 (resp : Nat → Nat) (l k errs : Nat) :
    httpLoop resp (Nat.succ (Nat.succ l)) k errs
      = if is5xx (resp k) = true then httpLoop resp (Nat.succ l) (k + 1) (errs + 1)
        else ⟨resp k, k, errs, if responseOk (resp k) = true then 0 else 1⟩ := rfl

theorem httpLoop_one (resp : Nat → Nat) (k errs : Nat) :
    httpLoop resp 1 k errs
      = if is5xx (resp k) = true
          then ⟨resp k, k, errs + 1, if responseOk (resp k) = true then 0 else 1⟩
        else ⟨resp k, k, errs, if responseOk (resp k) = true then 0 else 1⟩ := rfl

theorem responseOk_of_5xx {c : Nat} (h : is5xx c = true) : responseOk c = false := by
  unfold is5xx at h
  unfold responseOk
  simp only [Bool.and_eq_true, decide_eq_true_eq] at h
  simp only [decide_eq_false_iff_not]
  omega

/-- Exhaustion: when every attempt up to the bound comes back 5xx, the
loop stops after exactly `l + 2` attempts (one per unit of the bound),
has logged one attempt error per attempt, and the recorded non-ok
response triggers exactly one item-level error log. -/
theorem httpLoop_all5xx (resp : Nat → Nat) :
    ∀ (l k errs : Nat), (∀ j, k ≤ j → j ≤ k + l + 1 → is5xx (resp j) = true) →
      httpLoop resp (Nat.succ (Nat.succ l)) k errs
        = ⟨resp (k + l + 1), k + l + 1, errs + (l + 2), 1⟩ := by
  intro l
  induction l with
  | zero =>
    intro k errs h
    have h0 := h k (by omega) (by omega)
    have h1 := h (k + 1) (by omega) (by omega)
    rw [httpLoop_step2, if_pos h0, httpLoop_one, if_pos h1,
      responseOk_of_5xx h1]
    rw [show k + 0 + 1 = k + 1 from by omega,
      show errs + (0 + 2) = errs + 1 + 1 from by omega]
    rfl
  | succ l ih =>
    intro k errs h
    have h0 := h k (by omega) (by omega)
    rw [httpLoop_step2, if_pos h0]
    rw [ih (k + 1) (errs + 1) (fun j hj1 hj2 => h j (by omega) (by omega))]
    rw [show k + 1 + l + 1 = k + (l + 1) + 1 from by omega,
      show errs + 1 + (l + 2) = errs + (l + 1 + 2) from by omega]

/-- Success after failures: 5xx on every attempt before the `l + 2`-nd
and a non-5xx on that one: the loop records that response, having logged
one attempt error per failed attempt and nothing more. -/
theorem httpLoop_5xx_then_ok (resp : Nat → Nat) :
    ∀ (l k errs : Nat), (∀ j, k ≤ j → j ≤ k + l → is5xx (resp j) = true) →
      is5xx (resp (k + l + 1)) = false →
      httpLoop resp (Nat.succ (Nat.succ l)) k errs
        = ⟨resp (k + l + 1), k + l + 1, errs + (l + 1),
           if responseOk (resp (k + l + 1)) = true then 0 else 1⟩ := by
  intro l
  induction l with
  | zero =>
    intro k errs h hok
    have h0 := h k (by omega) (by omega)
    have h1 : is5xx (resp (k + 1)) = false := by
      have hk : k + 0 + 1 = k + 1 := by omega
      rw [← hk]; exact hok
    rw [httpLoop_step2, if_pos h0, httpLoop_one, if_neg (by simp [h1])]
  | succ l ih =>
    intro k errs h hok
    have h0 := h k (by omega) (by omega)
    rw [httpLoop_step2, if_pos h0]
    have hk : k + 1 + l + 1 = k + (l + 1) + 1 := by omega
    rw [ih (k + 1) (errs + 1) (fun j hj1 hj2 => h j (by omega) (by omega))
      (by rw [hk]; exact hok)]
    rw [hk, show errs + 1 + (l + 1) = errs + (l + 1 + 1) from by omega]

/-! ## Lemmas: a regex miss raises -/

theorem emitScheds_raises {l : List String}
    (h : ∃ u ∈ l, searchSched u.toList = none) : (emitScheds l).2 = true := by
  induction l with
  | nil => obtain ⟨u, hu, _⟩ := h; cases hu
  | cons v rest ih =>
    obtain ⟨u, hu, hnone⟩ := h
    rw [emitScheds]
    rcases List.mem_cons.mp hu with rfl | hu
    · rw [hnone]
    · cases hv : searchSched v.toList with
      | none => simp
      | some ds => simp only; exact ih ⟨u, hu, hnone⟩

theorem emitTasks_raises {l : List String}
    (h : ∃ u ∈ l, searchTask u.toList = none) : (emitTasks l).2 = true := by
  induction l with
  | nil => obtain ⟨u, hu, _⟩ := h; cases hu
  | cons v rest ih =>
    obtain ⟨u, hu, hnone⟩ := h
    rw [emitTasks]
    rcases List.mem_cons.mp hu with rfl | hu
    · rw [hnone]
    · cases hv : searchTask v.toList with
      | none => simp
      | some ds => simp only; exact ih ⟨u, hu, hnone⟩

theorem sentinel_mem_of_count_one {s : List String}
    (h : s.count sentinelId = 1) : sentinelId ∈ s := by
  by_contra hn
  rw [List.count_eq_zero.mpr hn] at h
  exact absurd h (by simp)

/-- Total DELETE network calls of a full live drain: one per truthy,
non-sentinel item of the queue. -/
theorem drain_total_netCalls (n : Nat) (logHead uriHead : String)
    (queue : List String) (assign : List (Fin n))
    (hv : ValidDrain n queue assign) :
    (∑ w : Fin n, ((workerLoop logHead uriHead false
        ((workerStream n queue assign w).map QEvent.item)).netCalls).length)
      = queue.countP goodId := by
  have hs := sum_countP_workerStream n goodId queue assign hv.1.symm
  rw [← hs]
  exact Finset.sum_congr rfl (fun w _ => workerLoop_netCalls_length _ _ _ (hv.2 w))

/-! ## The claims -/

/-- C1: for every eligible parent id discovered by the Finder, exactly
one parent Delete item is enqueued on the schedules queue, exactly one
dependent Delete item is enqueued on the tasks queue per dependent
returned by that parent's task query, and within the overall enqueue
sequence every dependent item of a given parent is enqueued strictly
(in fact immediately) before that parent's own Delete item. -/
theorem finder_enqueues_once_deps_before_parent (env : Env) (debug : Bool)
    (hok : (delete_task_and_schedules env (fetch_schedule_ids env).1 debug).2 = false)
    (hnd : (fetch_schedule_ids env).1.Nodup) :
    (∀ p ∈ (fetch_schedule_ids env).1,
      (schedsQueueOf
        (delete_task_and_schedules env (fetch_schedule_ids env).1 debug).1).count p = 1)
    ∧ tasksQueueOf (delete_task_and_schedules env (fetch_schedule_ids env).1 debug).1
        = concatDeps env (fetch_schedule_ids env).1
    ∧ ∀ p ∈ (fetch_schedule_ids env).1, ∃ l1 l2,
        (delete_task_and_schedules env (fetch_schedule_ids env).1 debug).1
          = l1 ++ (depsOf env p).map Event.task ++ Event.sched p :: l2 := by
  rw [trace_eq hok]
  refine ⟨?_, ?_, ?_⟩
  · intro p hp
    rw [schedsQueueOf_tracePure]
    exact List.count_eq_one_of_mem hnd hp
  · exact tasksQueueOf_tracePure env _
  · intro p hp
    exact tracePure_decomp env hp

theorem finder_enqueues_once_witness :
    ((delete_task_and_schedules env4 (fetch_schedule_ids env4).1 false).2 = false)
    ∧ (fetch_schedule_ids env4).1.Nodup
    ∧ ((∀ p ∈ (fetch_schedule_ids env4).1,
        (schedsQueueOf
          (delete_task_and_schedules env4 (fetch_schedule_ids env4).1 false).1).count p = 1)
      ∧ tasksQueueOf (delete_task_and_schedules env4 (fetch_schedule_ids env4).1 false).1
          = concatDeps env4 (fetch_schedule_ids env4).1
      ∧ ∀ p ∈ (fetch_schedule_ids env4).1, ∃ l1 l2,
          (delete_task_and_schedules env4 (fetch_schedule_ids env4).1 false).1
            = l1 ++ (depsOf env4 p).map Event.task ++ Event.sched p :: l2) :=
  ⟨by decide, by decide,
   finder_enqueues_once_deps_before_parent env4 false (by decide) (by decide)⟩

/-- C2: the Coordinator injects exactly as many Shutdown sentinels per
queue as there are worker threads created for that queue (both constants
are 4), and in any behaviourally possible full drain of a queue whose
real work precedes the sentinels, every worker receives exactly one
sentinel — none is left unconsumed (their counts over the workers sum to
the injected total), no worker takes two, and every worker's loop
finishes. -/
theorem sentinels_match_workers_and_drain (work : List String)
    (assign : List (Fin create_num_api_threads))
    (logHead uriHead : String) (debug : Bool)
    (hw : sentinelId ∉ work)
    (hv : ValidDrain create_num_api_threads
      (work ++ List.replicate manage_num_api_threads sentinelId) assign) :
    manage_num_api_threads = create_num_api_threads
    ∧ (∑ w : Fin create_num_api_threads,
        (workerStream create_num_api_threads
          (work ++ List.replicate manage_num_api_threads sentinelId) assign w).count
          sentinelId) = manage_num_api_threads
    ∧ ∀ w : Fin create_num_api_threads,
        (workerStream create_num_api_threads
          (work ++ List.replicate manage_num_api_threads sentinelId) assign w).count
          sentinelId = 1
        ∧ (workerLoop logHead uriHead debug
            ((workerStream create_num_api_threads
              (work ++ List.replicate manage_num_api_threads sentinelId) assign
                w).map QEvent.item)).finished = true := by
  rw [show manage_num_api_threads = create_num_api_threads from rfl] at hv ⊢
  have hone := drain_one_sentinel_each hw hv
  refine ⟨rfl, ?_, ?_⟩
  · rw [Finset.sum_congr rfl (fun w _ => hone w)]
    simp [manage_num_api_threads, create_num_api_threads]
  · intro w
    exact ⟨hone w,
      workerLoop_finished_of_mem _ _ _ _ (sentinel_mem_of_count_one (hone w))⟩

theorem sentinels_match_workers_and_drain_witness :
    (sentinelId ∉ ["1"])
    ∧ ValidDrain create_num_api_threads
        (["1"] ++ List.replicate manage_num_api_threads sentinelId)
        ([0, 0, 1, 2, 3] : List (Fin 4))
    ∧ (manage_num_api_threads = create_num_api_threads
      ∧ (∑ w : Fin create_num_api_threads,
          (workerStream create_num_api_threads
            (["1"] ++ List.replicate manage_num_api_threads sentinelId)
            ([0, 0, 1, 2, 3] : List (Fin 4)) w).count sentinelId) = manage_num_api_threads
      ∧ ∀ w : Fin create_num_api_threads,
          (workerStream create_num_api_threads
            (["1"] ++ List.replicate manage_num_api_threads sentinelId)
            ([0, 0, 1, 2, 3] : List (Fin 4)) w).count sentinelId = 1
          ∧ (workerLoop "Deleting task " "/api/task/" false
              ((workerStream create_num_api_threads
                (["1"] ++ List.replicate manage_num_api_threads sentinelId)
                ([0, 0, 1, 2, 3] : List (Fin 4)) w).map QEvent.item)).finished = true) :=
  ⟨by decide, by decide,
   sentinels_match_workers_and_drain ["1"] ([0, 0, 1, 2, 3] : List (Fin 4))
     "Deleting task " "/api/task/" false (by decide) (by decide)⟩

/-- C3: with the 5xx retry bound at 10, a DELETE answered 503 on each of
the first 9 attempts and 200 on the 10th ends with `responseCode = 200`
(recorded successful) after exactly 10 attempts, and no item-level error
is logged for it (each failed attempt does log one attempt-retry error,
9 in total); when all 10 attempts come back 5xx, exactly one item-level
error is logged for the item and no further attempts occur (10 attempt
errors precede it, the last marked aborting). -/
theorem retry_bound_behaviour (respA respB : Nat → Nat)
    (hA1 : ∀ k, 1 ≤ k → k ≤ 9 → respA k = 503) (hA2 : respA 10 = 200)
    (hB : ∀ k, 1 ≤ k → k ≤ 10 → is5xx (respB k) = true) :
    httpRequest10 respA = ⟨200, 10, 9, 0⟩
    ∧ (httpRequest10 respB).attempts = 10
    ∧ (httpRequest10 respB).itemErrors = 1
    ∧ (httpRequest10 respB).attemptErrors = 10 := by
  constructor
  · show httpLoop respA (Nat.succ (Nat.succ 8)) 1 0 = _
    rw [httpLoop_5xx_then_ok respA 8 1 0
      (fun j hj1 hj2 => by rw [hA1 j hj1 (by omega)]; rfl)
      (by show is5xx (respA 10) = false; rw [hA2]; rfl)]
    show (⟨respA 10, 10, 9, _⟩ : HttpResult) = _
    rw [hA2]
    rfl
  · have hres : httpRequest10 respB = ⟨respB 10, 10, 10, 1⟩ := by
      show httpLoop respB (Nat.succ (Nat.succ 8)) 1 0 = _
      rw [httpLoop_all5xx respB 8 1 0 (fun j hj1 hj2 => hB j hj1 (by omega))]
    rw [hres]
    exact ⟨rfl, rfl, rfl⟩

theorem retry_bound_witness :
    httpRequest10 (fun k => if k ≤ 9 then 503 else 200) = ⟨200, 10, 9, 0⟩
    ∧ (httpRequest10 (fun _ => 503)).attempts = 10
    ∧ (httpRequest10 (fun _ => 503)).itemErrors = 1
    ∧ (httpRequest10 (fun _ => 503)).attemptErrors = 10 :=
  retry_bound_behaviour (fun k => if k ≤ 9 then 503 else 200) (fun _ => 503)
    (fun k _ hk2 => by simp [hk2]) (by norm_num) (fun k _ _ => rfl)

/-- C5: with the dry-run (debug) flag set, the finder's
discovery-and-enqueue pass is unchanged, and a worker follows the same
control flow as a live run — identical info logs, identical termination,
nothing enqueued — but its list of issued DELETE network calls is
empty. -/
theorem dryrun_same_flow_zero_deletes (env : Env) (ps : List String)
    (logHead uriHead : String) (evs : List QEvent) :
    delete_task_and_schedules env ps true = delete_task_and_schedules env ps false
    ∧ (workerLoop logHead uriHead true evs).netCalls = []
    ∧ (workerLoop logHead uriHead true evs).logs
        = (workerLoop logHead uriHead false evs).logs
    ∧ (workerLoop logHead uriHead true evs).finished
        = (workerLoop logHead uriHead false evs).finished :=
  ⟨delete_task_and_schedules_debug_irrel env true false ps,
   (workerLoop_dryrun_parts _ _ evs).1,
   (workerLoop_dryrun_parts _ _ evs).2.1,
   (workerLoop_dryrun_parts _ _ evs).2.2⟩

/-- C6: a non-2xx parent-listing response makes the Finder return the
empty id list without raising, and a non-2xx dependent-listing response
for a parent emits no dependent items yet still enqueues that parent's
own Delete item and continues with the remaining parents. -/
theorem nonsuccess_is_no_results (env : Env) (p : String)
    (rest : List String) (debug : Bool)
    (hlist : is2xx env.scheduleListResp.code = false)
    (htask : is2xx (env.taskResp p).code = false) :
    fetch_schedule_ids env = ([], false)
    ∧ delete_task_and_schedules env (p :: rest) debug
        = (Event.sched p :: (delete_task_and_schedules env rest debug).1,
           (delete_task_and_schedules env rest debug).2) := by
  constructor
  · simp [fetch_schedule_ids, hlist]
  · rw [delete_task_and_schedules]
    have hr : runParent env p = ([Event.sched p], false) := by
      simp [runParent, htask]
    rw [hr]
    simp

theorem nonsuccess_is_no_results_witness :
    (is2xx (Env.mk ⟨500, ["r"]⟩ (fun _ => ⟨404, ["s"]⟩)).scheduleListResp.code = false)
    ∧ (is2xx ((Env.mk ⟨500, ["r"]⟩ (fun _ => ⟨404, ["s"]⟩)).taskResp "7").code = false)
    ∧ fetch_schedule_ids (Env.mk ⟨500, ["r"]⟩ (fun _ => ⟨404, ["s"]⟩)) = ([], false)
    ∧ delete_task_and_schedules (Env.mk ⟨500, ["r"]⟩ (fun _ => ⟨404, ["s"]⟩)) ["7"] false
        = (Event.sched "7"
            :: (delete_task_and_schedules (Env.mk ⟨500, ["r"]⟩ (fun _ => ⟨404, ["s"]⟩)) [] false).1,
           (delete_task_and_schedules (Env.mk ⟨500, ["r"]⟩ (fun _ => ⟨404, ["s"]⟩)) [] false).2) :=
  ⟨by decide, by decide,
   (nonsuccess_is_no_results (Env.mk ⟨500, ["r"]⟩ (fun _ => ⟨404, ["s"]⟩)) "7" [] false
      (by decide) (by decide)).1,
   (nonsuccess_is_no_results (Env.mk ⟨500, ["r"]⟩ (fun _ => ⟨404, ["s"]⟩)) "7" [] false
      (by decide) (by decide)).2⟩

/-- C7 counterexample: with the SERVER parameter set to `'none'` the run
does abort before any thread is created, but it exits through
`sys.exit(0)`, whose process exit status is 0 — success — contradicting
the claim that the exit status is not success. -/
theorem missing_server_exits_success :
    (mainRun (some "none")).threadsStarted = false
    ∧ (mainRun (some "none")).exitCode = 0 := by
  constructor <;> rfl

/-- C7 amended: if no target host is configured (SERVER absent, empty,
or lowercasing to `'none'`), the run aborts before any Finder or worker
thread is created and before any API call is issued, and the process
exits immediately with exit status 0 (success, via `sys.exit(0)`); in
every other case the run's exit status is likewise success. -/
theorem mainRun_spec (server : Option String) :
    (serverMissing server = true → mainRun server = ⟨0, false, false⟩)
    ∧ (serverMissing server = false → mainRun server = ⟨0, true, true⟩) := by
  constructor <;> intro h <;> simp [mainRun, h]

theorem mainRun_spec_witness :
    (serverMissing (some "None") = true
      ∧ mainRun (some "None") = ⟨0, false, false⟩)
    ∧ (serverMissing (some "myhost") = false
      ∧ mainRun (some "myhost") = ⟨0, true, true⟩) :=
  ⟨⟨by decide, (mainRun_spec (some "None")).1 (by decide)⟩,
   ⟨by decide, (mainRun_spec (some "myhost")).2 (by decide)⟩⟩

/-- C8: a worker's loop terminates exactly when it dequeues the Shutdown
sentinel; dequeuing the sentinel logs nothing, issues no delete, and
puts nothing back on the queue; the worker never enqueues anything at
all; and a dequeue timeout just makes the loop run again. -/
theorem worker_terminates_iff_sentinel (logHead uriHead : String)
    (debug : Bool) (evs rest : List QEvent) :
    ((workerLoop logHead uriHead debug evs).finished = true
      ↔ QEvent.item sentinelId ∈ evs)
    ∧ workerLoop logHead uriHead debug (QEvent.item sentinelId :: rest)
        = ⟨[], [], [], true⟩
    ∧ (workerLoop logHead uriHead debug evs).enqueued = []
    ∧ workerLoop logHead uriHead debug (QEvent.timeout :: rest)
        = workerLoop logHead uriHead debug rest :=
  ⟨workerLoop_finished_iff _ _ _ evs, workerLoop_sentinel _ _ _ rest,
   workerLoop_enqueued_nil _ _ _ evs, workerLoop_timeout _ _ _ rest⟩

/-- C9: every id the Finder enqueues is a non-empty string of decimal
digits extracted by regex, hence never equal to the sentinel string
`'done'`; a live worker dequeuing such an item treats it as a real
delete — one log, one DELETE call — and does not terminate on it. -/
theorem enqueued_ids_never_sentinel (env : Env) (debug : Bool)
    (logHead uriHead : String) (e : Event)
    (he : e ∈ (delete_task_and_schedules env (fetch_schedule_ids env).1 debug).1) :
    digitsStr (idOf e) ∧ idOf e ≠ sentinelId
    ∧ workerLoop logHead uriHead false [QEvent.item (idOf e)]
        = ⟨[logHead ++ idOf e], [uriHead ++ idOf e], [], false⟩ := by
  have hd : digitsStr (idOf e) := by
    rcases mem_trace env debug _ e he with ⟨p, hp, rfl⟩ | ⟨i, hi, rfl⟩
    · exact mem_fetch_digits env p hp
    · exact hi
  have hne := digitsStr_ne_sentinel hd
  have hne2 := digitsStr_ne_empty hd
  refine ⟨hd, hne, ?_⟩
  rw [workerLoop_item_step _ _ _ _ _ hne, if_neg hne2]
  rfl

theorem enqueued_ids_never_sentinel_witness :
    (Event.task "5001"
        ∈ (delete_task_and_schedules env4 (fetch_schedule_ids env4).1 false).1)
    ∧ (digitsStr (idOf (Event.task "5001"))
      ∧ idOf (Event.task "5001") ≠ sentinelId
      ∧ workerLoop "Deleting task " "/api/task/" false
            [QEvent.item (idOf (Event.task "5001"))]
          = ⟨["Deleting task " ++ idOf (Event.task "5001")],
             ["/api/task/" ++ idOf (Event.task "5001")], [], false⟩) :=
  ⟨by decide,
   enqueued_ids_never_sentinel env4 false "Deleting task " "/api/task/"
     (Event.task "5001") (by decide)⟩

/-- C10: a successful (2xx) discovery response containing a result whose
URI the id-extraction regex does not match makes the Finder raise (the
loop's raised-flag is set) instead of skipping the entry or treating the
response as no results — for the parent-listing query and for a
per-parent dependent query alike. -/
theorem unmatched_uri_raises (env : Env) (p : String) (rest : List String)
    (debug : Bool)
    (h1 : is2xx env.scheduleListResp.code = true)
    (h2 : env.scheduleListResp.resultSet ≠ [])
    (h3 : ∃ u ∈ env.scheduleListResp.resultSet, searchSched u.toList = none)
    (h4 : is2xx (env.taskResp p).code = true)
    (h5 : (env.taskResp p).resultSet ≠ [])
    (h6 : ∃ u ∈ (env.taskResp p).resultSet, searchTask u.toList = none) :
    (fetch_schedule_ids env).2 = true
    ∧ (delete_task_and_schedules env (p :: rest) debug).2 = true := by
  constructor
  · unfold fetch_schedule_ids
    rw [if_pos (by rw [h1]; simp [h2])]
    exact emitScheds_raises h3
  · rw [delete_task_and_schedules]
    have hrp : (runParent env p).2 = true := by
      unfold runParent
      rw [if_pos (by rw [h4]; simp [h5])]
      simp only
      rw [if_pos (emitTasks_raises h6)]
    rw [if_pos hrp]

/-- C4: in the concrete scenario (parents 101 and 202 discovered, 101
with dependent 5001, 202 with none), the tasks queue receives exactly the
Delete item for 5001 and the schedules queue exactly the Delete items for
101 and 202; any behaviourally possible full drain issues exactly 3
DELETE calls (1 dependent, 2 parents) and joins every worker, reaching
the terminated state. -/
theorem concrete_scenario_three_deletes (assignT assignS : List (Fin 4))
    (hT : ValidDrain 4 drainTasksQ4 assignT)
    (hS : ValidDrain 4 drainSchedsQ4 assignS) :
    tasksQueueOf (delete_task_and_schedules env4 (fetch_schedule_ids env4).1 false).1
      = ["5001"]
    ∧ schedsQueueOf (delete_task_and_schedules env4 (fetch_schedule_ids env4).1 false).1
      = ["101", "202"]
    ∧ (∑ w : Fin 4, ((delete_tasks false
        ((workerStream 4 drainTasksQ4 assignT w).map QEvent.item)).netCalls).length)
      = 1
    ∧ (∑ w : Fin 4, ((delete_schedules false
        ((workerStream 4 drainSchedsQ4 assignS w).map QEvent.item)).netCalls).length)
      = 2
    ∧ (∑ w : Fin 4, ((delete_tasks false
        ((workerStream 4 drainTasksQ4 assignT w).map QEvent.item)).netCalls).length)
      + (∑ w : Fin 4, ((delete_schedules false
        ((workerStream 4 drainSchedsQ4 assignS w).map QEvent.item)).netCalls).length)
      = 3
    ∧ coordinatorState
        (((List.finRange 4).map fun w => (delete_tasks false
            ((workerStream 4 drainTasksQ4 assignT w).map QEvent.item)).finished)
          ++ ((List.finRange 4).map fun w => (delete_schedules false
            ((workerStream 4 drainSchedsQ4 assignS w).map QEvent.item)).finished))
        = PipelineState.terminated := by
  have hTsum : (∑ w : Fin 4, ((delete_tasks false
      ((workerStream 4 drainTasksQ4 assignT w).map QEvent.item)).netCalls).length)
      = 1 := by
    simp only [delete_tasks]
    rw [drain_total_netCalls 4 _ _ _ assignT hT]
    decide
  have hSsum : (∑ w : Fin 4, ((delete_schedules false
      ((workerStream 4 drainSchedsQ4 assignS w).map QEvent.item)).netCalls).length)
      = 2 := by
    simp only [delete_schedules]
    rw [drain_total_netCalls 4 _ _ _ assignS hS]
    decide
  have hTfin : ∀ w : Fin 4, (delete_tasks false
      ((workerStream 4 drainTasksQ4 assignT w).map QEvent.item)).finished = true := by
    intro w
    exact workerLoop_finished_of_mem _ _ _ _ (sentinel_mem_of_count_one
      (drain_one_sentinel_each (by decide) hT w))
  have hSfin : ∀ w : Fin 4, (delete_schedules false
      ((workerStream 4 drainSchedsQ4 assignS w).map QEvent.item)).finished = true := by
    intro w
    exact workerLoop_finished_of_mem _ _ _ _ (sentinel_mem_of_count_one
      (drain_one_sentinel_each (by decide) hS w))
  refine ⟨by decide, by decide, hTsum, hSsum, by rw [hTsum, hSsum], ?_⟩
  unfold coordinatorState
  rw [if_pos ?hall]
  case hall =>
    rw [List.all_eq_true]
    intro b hb
    rcases List.mem_append.mp hb with hb | hb
    · obtain ⟨w, _, rfl⟩ := List.mem_map.mp hb
      exact hTfin w
    · obtain ⟨w, _, rfl⟩ := List.mem_map.mp hb
      exact hSfin w

theorem concrete_scenario_witness :
    ValidDrain 4 drainTasksQ4 ([0, 0, 1, 2, 3] : List (Fin 4))
    ∧ ValidDrain 4 drainSchedsQ4 ([0, 1, 0, 1, 2, 3] : List (Fin 4))
    ∧ (tasksQueueOf (delete_task_and_schedules env4 (fetch_schedule_ids env4).1 false).1
        = ["5001"]
      ∧ schedsQueueOf
          (delete_task_and_schedules env4 (fetch_schedule_ids env4).1 false).1
        = ["101", "202"]
      ∧ (∑ w : Fin 4, ((delete_tasks false
          ((workerStream 4 drainTasksQ4 ([0, 0, 1, 2, 3] : List (Fin 4)) w).map
            QEvent.item)).netCalls).length) = 1
      ∧ (∑ w : Fin 4, ((delete_schedules false
          ((workerStream 4 drainSchedsQ4 ([0, 1, 0, 1, 2, 3] : List (Fin 4)) w).map
            QEvent.item)).netCalls).length) = 2
      ∧ (∑ w : Fin 4, ((delete_tasks false
          ((workerStream 4 drainTasksQ4 ([0, 0, 1, 2, 3] : List (Fin 4)) w).map
            QEvent.item)).netCalls).length)
        + (∑ w : Fin 4, ((delete_schedules false
          ((workerStream 4 drainSchedsQ4 ([0, 1, 0, 1, 2, 3] : List (Fin 4)) w).map
            QEvent.item)).netCalls).length) = 3
      ∧ coordinatorState
          (((List.finRange 4).map fun w => (delete_tasks false
              ((workerStream 4 drainTasksQ4 ([0, 0, 1, 2, 3] : List (Fin 4)) w).map
                QEvent.item)).finished)
            ++ ((List.finRange 4).map fun w => (delete_schedules false
              ((workerStream 4 drainSchedsQ4 ([0, 1, 0, 1, 2, 3] : List (Fin 4)) w).map
                QEvent.item)).finished))
          = PipelineState.terminated) :=
  ⟨by decide, by decide,
   concrete_scenario_three_deletes ([0, 0, 1, 2, 3] : List (Fin 4))
     ([0, 1, 0, 1, 2, 3] : List (Fin 4)) (by decide) (by decide)⟩

theorem unmatched_uri_raises_witness :
    (is2xx (Env.mk ⟨200, ["oops"]⟩ (fun _ => ⟨200, ["bad"]⟩)).scheduleListResp.code = true)
    ∧ ((fetch_schedule_ids (Env.mk ⟨200, ["oops"]⟩ (fun _ => ⟨200, ["bad"]⟩))).2 = true
      ∧ (delete_task_and_schedules (Env.mk ⟨200, ["oops"]⟩ (fun _ => ⟨200, ["bad"]⟩))
            ["1"] false).2 = true) :=
  ⟨by decide,
   unmatched_uri_raises (Env.mk ⟨200, ["oops"]⟩ (fun _ => ⟨200, ["bad"]⟩)) "1" [] false
     (by decide) (by decide) (by decide) (by decide) (by decide) (by decide)⟩

end Maintenance
